import Mathlib

/-!
Verification of the pub tool (main.go): a shallow embedding of the
per-record evaluation-and-dispatch pipeline.

The repository code is main.go.  Third-party collaborators
(the expr-lang evaluator, the net/http client) are modelled as function
parameters, matching the spec's view of them as capabilities.  The Go
standard library pieces the code leans on (encoding/json on the JSON
subset this tool exercises, strings.SplitN, strings.TrimSpace,
textproto's canonical MIME header keys, http.Header.Set) are given
executable models below.
-/

namespace Pub

/-! ## String helpers modelling the strings package -/

/-- Model of Go unicode.IsSpace restricted to the code points
strings.TrimSpace commonly trims (ASCII whitespace, NEL, NBSP). -/
def isSpaceGo (c : Char) : Bool :=
  c.val = 32 || c.val = 9 || c.val = 10 || c.val = 11 || c.val = 12 ||
  c.val = 13 || c.val = 133 || c.val = 160

/-- Model of strings.TrimSpace: drop leading and trailing whitespace. -/
def trimSpace (s : String) : String :=
  String.mk (((s.toList.dropWhile isSpaceGo).reverse.dropWhile isSpaceGo).reverse)

/-- Split a character list at the first occurrence of sep, if any. -/
def breakAtChar (sep : Char) : List Char → Option (List Char × List Char)
  | [] => none
  | c :: rest =>
    if c = sep then some ([], rest)
    else
      match breakAtChar sep rest with
      | some (pre, post) => some (c :: pre, post)
      | none => none

/-- Model of strings.SplitN(s, sep, 2) for a one-character separator:
two parts when sep occurs (split at its first occurrence), else one. -/
def splitN2 (s : String) (sep : Char) : List String :=
  match breakAtChar sep s.toList with
  | some (pre, post) => [String.mk pre, String.mk post]
  | none => [s]

/-! ## Canonical MIME header keys and http.Header -/

/-- Model of textproto token characters valid in a MIME header key. -/
def isTokenChar (c : Char) : Bool :=
  c.isAlpha || c.isDigit || c = '!' || c = '#' || c = '$' || c = '%' ||
  c = '&' || c.val = 39 || c = '*' || c = '+' || c = '-' || c = '.' ||
  c = '^' || c = '_' || c.val = 96 || c = '|' || c = '~'

/-- Canonicalize one character of a header key: upper-case after a
hyphen or at the start, lower-case otherwise. -/
def canonChars : Bool → List Char → List Char
  | _, [] => []
  | upper, c :: rest =>
    let c' := if upper then c.toUpper else c.toLower
    c' :: canonChars (c = '-') rest

/-- Model of textproto.CanonicalMIMEHeaderKey: keys containing an
invalid byte are returned unchanged, otherwise the first letter and
every letter after a hyphen is upper-cased and the rest lower-cased. -/
def canonicalMIMEHeaderKey (s : String) : String :=
  if s.toList.all isTokenChar then String.mk (canonChars true s.toList)
  else s

/-- Header maps are association lists keyed by canonical header name. -/
def Headers := List (String × String)

/-- Model of http.Header.Set: replace the entry for the canonical key,
or add one if absent. -/
def setHeader (hs : List (String × String)) (k v : String) :
    List (String × String) :=
  let ck := canonicalMIMEHeaderKey k
  if hs.any (fun p => p.1 = ck) then
    hs.map (fun p => if p.1 = ck then (ck, v) else p)
  else
    hs ++ [(ck, v)]

/-- Model of http.Header.Get: look up by canonical key. -/
def getHeader (hs : List (String × String)) (k : String) : Option String :=
  (hs.find? (fun p => p.1 = canonicalMIMEHeaderKey k)).map (fun p => p.2)

/-! ## JSON values, decoding and encoding

The dynamic values flowing through the pipeline (decoded records and
evaluator results) are the JSON value shapes json.Unmarshal produces
for interface values.  Numbers are modelled as integers (the subset of
float64 this development exercises). -/

inductive Json where
  | null : Json
  | bool (b : Bool) : Json
  | num (n : Int) : Json
  | str (s : String) : Json
  | arr (elems : List Json) : Json
  | obj (fields : List (String × Json)) : Json

/-- Insert a key into an association list, replacing an existing entry
(Go map assignment: the later duplicate key wins). -/
def insertKV (m : List (String × Json)) (k : String) (v : Json) :
    List (String × Json) :=
  if m.any (fun p => p.1 = k) then
    m.map (fun p => if p.1 = k then (k, v) else p)
  else
    m ++ [(k, v)]

/-- Skip JSON whitespace. -/
def skipWs : List Char → List Char
  | c :: rest =>
    if c = ' ' || c.val = 9 || c.val = 10 || c.val = 13 then skipWs rest
    else c :: rest
  | [] => []

/-- Parse the remainder of a JSON string literal (after the opening
quote), handling the simple escapes.  Model of the encoding/json
string scanner on the subset exercised here. -/
def parseStringRest : Nat → List Char → Except String (String × List Char)
  | 0, _ => .error "depth limit"
  | _, [] => .error "unexpected end of JSON input"
  | fuel + 1, c :: rest =>
    if c.val = 34 then .ok ("", rest)
    else if c.val = 92 then
      match rest with
      | [] => .error "unexpected end of JSON input"
      | e :: rest' =>
        let dec : Except String Char :=
          if e.val = 34 then .ok (Char.ofNat 34)
          else if e.val = 92 then .ok (Char.ofNat 92)
          else if e = '/' then .ok '/'
          else if e = 'n' then .ok (Char.ofNat 10)
          else if e = 't' then .ok (Char.ofNat 9)
          else if e = 'r' then .ok (Char.ofNat 13)
          else if e = 'b' then .ok (Char.ofNat 8)
          else if e = 'f' then .ok (Char.ofNat 12)
          else .error "invalid escape"
        match dec with
        | .error m => .error m
        | .ok ch =>
          match parseStringRest fuel rest' with
          | .ok (s, r) => .ok (String.mk (ch :: s.toList), r)
          | .error m => .error m
    else
      match parseStringRest fuel rest with
      | .ok (s, r) => .ok (String.mk (c :: s.toList), r)
      | .error m => .error m

/-- Parse a run of digits into a natural number (left fold). -/
def parseDigits : List Char → Nat → Nat × List Char
  | c :: rest, acc =>
    if c.isDigit then parseDigits rest (acc * 10 + (c.toNat - 48))
    else (acc, c :: rest)
  | [], acc => (acc, [])

mutual

/-- Parse one JSON value.  Model of json.Unmarshal into an interface
value, on the integer-number, simple-escape subset. -/
def parseVal : Nat → List Char → Except String (Json × List Char)
  | 0, _ => .error "depth limit"
  | fuel + 1, cs =>
    match skipWs cs with
    | [] => .error "unexpected end of JSON input"
    | 'n' :: 'u' :: 'l' :: 'l' :: rest => .ok (.null, rest)
    | 't' :: 'r' :: 'u' :: 'e' :: rest => .ok (.bool true, rest)
    | 'f' :: 'a' :: 'l' :: 's' :: 'e' :: rest => .ok (.bool false, rest)
    | c :: rest =>
      if c.val = 34 then
        match parseStringRest (fuel + 1) rest with
        | .ok (s, r) => .ok (.str s, r)
        | .error m => .error m
      else if c = '[' then
        match skipWs rest with
        | ']' :: r => .ok (.arr [], r)
        | r => parseElems fuel r []
      else if c = '{' then
        match skipWs rest with
        | '}' :: r => .ok (.obj [], r)
        | r => parseMembers fuel r []
      else if c = '-' then
        match rest with
        | d :: ds =>
          if d.isDigit then
            let (n, r) := parseDigits ds (d.toNat - 48)
            .ok (.num (-(Int.ofNat n)), r)
          else .error "invalid character in number"
        | [] => .error "unexpected end of JSON input"
      else if c.isDigit then
        let (n, r) := parseDigits rest (c.toNat - 48)
        .ok (.num (Int.ofNat n), r)
      else .error ("invalid character " ++ String.mk [c] ++ " looking for beginning of value")

/-- Parse the elements of a non-empty JSON array. -/
def parseElems : Nat → List Char → List Json → Except String (Json × List Char)
  | 0, _, _ => .error "depth limit"
  | fuel + 1, cs, acc =>
    match parseVal fuel cs with
    | .error m => .error m
    | .ok (v, rest) =>
      match skipWs rest with
      | ',' :: r => parseElems fuel r (acc ++ [v])
      | ']' :: r => .ok (.arr (acc ++ [v]), r)
      | _ => .error "invalid character after array element"

/-- Parse the members of a non-empty JSON object.  A duplicate key
overwrites the earlier entry, as in map assignment. -/
def parseMembers : Nat → List Char → List (String × Json) →
    Except String (Json × List Char)
  | 0, _, _ => .error "depth limit"
  | fuel + 1, cs, acc =>
    match skipWs cs with
    | c :: rest =>
      if c.val = 34 then
        match parseStringRest fuel rest with
        | .error m => .error m
        | .ok (k, r1) =>
          match skipWs r1 with
          | ':' :: r2 =>
            match parseVal fuel r2 with
            | .error m => .error m
            | .ok (v, r3) =>
              match skipWs r3 with
              | ',' :: r4 => parseMembers fuel r4 (insertKV acc k v)
              | '}' :: r4 => .ok (.obj (insertKV acc k v), r4)
              | _ => .error "invalid character after object member"
          | _ => .error "invalid character after object key"
      else .error "invalid character looking for object key"
    | [] => .error "unexpected end of JSON input"

end

/-- Model of json.Unmarshal of one line into an interface value:
parse one value and require only whitespace after it. -/
def jsonParse (s : String) : Except String Json :=
  match parseVal (2 * s.length + 2) s.toList with
  | .error m => .error m
  | .ok (v, rest) =>
    match skipWs rest with
    | [] => .ok v
    | c :: _ => .error ("invalid character " ++ String.mk [c] ++ " after top-level value")

/-- Escape a string for JSON output (model on the subset without
characters that encoding/json escapes specially beyond these). -/
def jsonEscape (s : String) : String :=
  String.mk (s.toList.flatMap (fun c =>
    if c.val = 34 then [Char.ofNat 92, Char.ofNat 34]
    else if c.val = 92 then [Char.ofNat 92, Char.ofNat 92]
    else if c.val = 10 then [Char.ofNat 92, 'n']
    else if c.val = 9 then [Char.ofNat 92, 't']
    else if c.val = 13 then [Char.ofNat 92, 'r']
    else [c]))

/-- Insertion of a keyed pair into a key-sorted list (by string order). -/
def insSorted (p : String × Json) : List (String × Json) → List (String × Json)
  | [] => [p]
  | q :: rest => if p.1 ≤ q.1 then p :: q :: rest else q :: insSorted p rest

/-- Sort object fields by key, as json.Marshal does for Go maps. -/
def sortFields (l : List (String × Json)) : List (String × Json) :=
  l.foldr insSorted []

mutual

/-- Executable size of a JSON value, used as encoder fuel. -/
def jsize : Json → Nat
  | .null => 1
  | .bool _ => 1
  | .num _ => 1
  | .str _ => 1
  | .arr xs => 1 + jsizeList xs
  | .obj kvs => 1 + jsizeFields kvs

/-- Combined size of a list of JSON values. -/
def jsizeList : List Json → Nat
  | [] => 0
  | x :: rest => jsize x + jsizeList rest

/-- Combined size of a list of JSON object fields. -/
def jsizeFields : List (String × Json) → Nat
  | [] => 0
  | (_, v) :: rest => jsize v + jsizeFields rest

end

/-- Wrap a string in JSON double quotes with its content escaped. -/
def jsonQuote (s : String) : String :=
  String.mk [Char.ofNat 34] ++ jsonEscape s ++ String.mk [Char.ofNat 34]

/-- Comma-separated concatenation. -/
def commaSep : List String → String
  | [] => ""
  | [x] => x
  | x :: y :: rest => x ++ "," ++ commaSep (y :: rest)

/-- Fuel-indexed JSON encoder; the fuel bounds nesting depth and is
never exhausted when called through jsonEncode. -/
def encodeVal : Nat → Json → String
  | 0, _ => ""
  | fuel + 1, v =>
    match v with
    | .null => "null"
    | .bool true => "true"
    | .bool false => "false"
    | .num n => toString n
    | .str s => jsonQuote s
    | .arr xs => "[" ++ commaSep (xs.map (encodeVal fuel)) ++ "]"
    | .obj kvs =>
      "\x7b" ++
      commaSep ((sortFields kvs).map (fun p => jsonQuote p.1 ++ ":" ++ encodeVal fuel p.2)) ++
      "\x7d"

/-- Model of json.Marshal of a decoded interface value: compact output,
object keys sorted (as for Go maps). -/
def jsonEncode (v : Json) : String := encodeVal (1 + jsize v) v

/-! ## fmt.Sprintf("%v", ...) on dynamic values -/

/-- Space-separated concatenation. -/
def spaceSep : List String → String
  | [] => ""
  | [x] => x
  | x :: y :: rest => x ++ " " ++ spaceSep (y :: rest)

/-- Fuel-indexed %v formatter; the fuel bounds nesting depth and is
never exhausted when called through goFormat. -/
def formatVal : Nat → Json → String
  | 0, _ => ""
  | fuel + 1, v =>
    match v with
    | .null => "<nil>"
    | .bool true => "true"
    | .bool false => "false"
    | .num n => toString n
    | .str s => s
    | .arr xs => "[" ++ spaceSep (xs.map (formatVal fuel)) ++ "]"
    | .obj kvs =>
      "map[" ++
      spaceSep ((sortFields kvs).map (fun p => p.1 ++ ":" ++ formatVal fuel p.2)) ++
      "]"

/-- Model of fmt.Sprintf with the %v verb applied to a decoded dynamic
value: strings print as themselves, nil as a nil marker, composites in
fmt's bracketed forms (maps with sorted keys). -/
def goFormat (v : Json) : String := formatVal (1 + jsize v) v

/-! ## The pipeline from main.go -/

/-- Insert a key into a string map, replacing an existing entry
(Go map assignment semantics). -/
def insertEnv (m : List (String × String)) (k v : String) :
    List (String × String) :=
  if m.any (fun p => p.1 = k) then
    m.map (fun p => if p.1 = k then (k, v) else p)
  else
    m ++ [(k, v)]

/-- Embedding of getEnvMap: split each KEY=VALUE entry of the process
environment on the first equals sign and keep the two-part entries. -/
def getEnvMap (environ : List String) : List (String × String) :=
  environ.foldl
    (fun envMap e =>
      match splitN2 e '=' with
      | [k, v] => insertEnv envMap k v
      | _ => envMap)
    []

/-- The evaluation context built per line: the decoded input and the
environment mapping, as in the env map literal of processLine. -/
structure Ctx where
  input : Json
  env : List (String × String)

/-- The expression-evaluation capability (expr.Compile plus expr.Run),
a parameter of the embedding as in the spec's evaluator contract. -/
def EvalF := String → Ctx → Except String Json

/-- An assembled outgoing HTTP request. -/
structure Request where
  method : String
  url : String
  headers : List (String × String)
  body : String
deriving DecidableEq

/-- An HTTP response as the code consumes it: numeric status code,
status text, full body. -/
structure Response where
  statusCode : Nat
  status : String
  body : String

/-- The HTTP-transport capability (http.Client.Do plus response body
read), a parameter of the embedding. -/
def HttpF := Request → Except String Response

/-- Model of the method-token check in http.NewRequest. -/
def validMethod (m : String) : Bool :=
  decide (m ≠ "") && m.toList.all isTokenChar

/-- Model of the URL check in http.NewRequest: url.Parse rejects
ASCII control characters. -/
def urlParseOk (u : String) : Bool :=
  u.toList.all (fun c => decide (32 ≤ c.val) && decide (c.val ≠ 127))

/-- Model of http.NewRequest: validate the method and URL and build a
request with empty headers. -/
def newRequest (method url body : String) : Except String Request :=
  let mm := if method = "" then "GET" else method
  match validMethod mm, urlParseOk url with
  | false, _ => .error ("net/http: invalid method " ++ mm)
  | true, false => .error ("parse " ++ url ++ ": net/url: invalid control character in URL")
  | true, true => .ok { method := mm, url := url, headers := [], body := body }

/-- The per-record error values processLine returns, one constructor
per fmt.Errorf site. -/
inductive ProcError where
  | parseJson (msg : String) : ProcError
  | urlEval (msg : String) : ProcError
  | transformEval (msg : String) : ProcError
  | createReq (msg : String) : ProcError
  | headerEval (msg : String) : ProcError
  | headerFormat (headerStr : String) : ProcError
  | send (msg : String) : ProcError
  | httpStatus (status : String) : ProcError
deriving DecidableEq

/-- Render a per-record error the way its fmt.Errorf call does. -/
def ProcError.render : ProcError → String
  | .parseJson m => "parsing JSON: " ++ m
  | .urlEval m => "evaluating URL expression: " ++ m
  | .transformEval m => "evaluating transform expression: " ++ m
  | .createReq m => "creating request: " ++ m
  | .headerEval m => "evaluating header expression: " ++ m
  | .headerFormat s => "invalid header format: " ++ s
  | .send m => "sending request: " ++ m
  | .httpStatus s => "HTTP error: " ++ s

/-- The startup configuration from the flags init registers:
repeatable header expressions, the transform expression (empty means
none) and the request method (default POST). -/
structure Config where
  headers : List String
  transform : String
  requestMethod : String

/-- The flag names init registers on the root command. -/
def registeredFlags : List String := ["header", "transform", "request"]

/-- The observable effects of one processLine call: requests handed to
client.Do, lines printed to standard output, and the returned error. -/
structure ProcOut where
  sent : List Request
  stdout : List String
  err : Option ProcError
deriving DecidableEq

/-- Embedding of the header loop of processLine: evaluate each header
expression, format it with %v, split on the first colon, and set the
trimmed name/value pair on the request; a string with no colon is an
invalid-header-format error. -/
def addHeaders (eval : EvalF) (ctx : Ctx) : List String → Request →
    Except ProcError Request
  | [], req => .ok req
  | h :: rest, req =>
    match eval h ctx with
    | .error e => .error (.headerEval e)
    | .ok v =>
      let headerStr := goFormat v
      match splitN2 headerStr ':' with
      | [name, value] =>
        addHeaders eval ctx rest
          { req with headers := setHeader req.headers (trimSpace name) (trimSpace value) }
      | _ => .error (.headerFormat headerStr)

/-- Embedding of processLine: decode the line, build the context (the
env map is computed here, by this call), evaluate the URL expression,
evaluate the transform or keep the decoded input as body, marshal the
body, build the request with the default Content-Type then the header
expressions, send it, print the status line, and flag status >= 400. -/
def processLine (cfg : Config) (eval : EvalF) (http : HttpF)
    (environ : List String) (line : String) (urlExpr : String) : ProcOut :=
  match jsonParse line with
  | .error e => { sent := [], stdout := [], err := some (.parseJson e) }
  | .ok input =>
    let ctx : Ctx := { input := input, env := getEnvMap environ }
    match eval urlExpr ctx with
    | .error e => { sent := [], stdout := [], err := some (.urlEval e) }
    | .ok url =>
      let bodyRes : Except ProcError Json :=
        if cfg.transform ≠ "" then
          match eval cfg.transform ctx with
          | .error e => .error (.transformEval e)
          | .ok b => .ok b
        else .ok input
      match bodyRes with
      | .error pe => { sent := [], stdout := [], err := some pe }
      | .ok body =>
        let bodyBytes := jsonEncode body
        match newRequest cfg.requestMethod (goFormat url) bodyBytes with
        | .error e => { sent := [], stdout := [], err := some (.createReq e) }
        | .ok req0 =>
          let req1 : Request :=
            { req0 with headers := setHeader req0.headers "Content-Type" "application/json" }
          match addHeaders eval ctx cfg.headers req1 with
          | .error pe => { sent := [], stdout := [], err := some pe }
          | .ok req =>
            match http req with
            | .error e => { sent := [req], stdout := [], err := some (.send e) }
            | .ok resp =>
              let outLine := "Status: " ++ resp.status ++ ", Response: " ++ resp.body
              if 400 ≤ resp.statusCode then
                { sent := [req], stdout := [outLine], err := some (.httpStatus resp.status) }
              else
                { sent := [req], stdout := [outLine], err := none }

/-- The observable effects of one run call: requests handed to
client.Do, standard output lines, standard error lines, exit status. -/
structure RunOut where
  sent : List Request
  stdout : List String
  stderr : List String
  exit : Nat
deriving DecidableEq

/-- One input line paired with the process environment at the moment
that line is processed (os.Environ is consulted during processing, so
the embedding records it per line). -/
def LineIn := String × List String

/-- Embedding of run's scanner loop: skip blank lines, process the
rest, log per-line errors to standard error and continue; after the
loop a scanner error is fatal with exit status 1, and clean
end-of-input exits with status 0. -/
def runPub (cfg : Config) (eval : EvalF) (http : HttpF) (urlExpr : String) :
    List (String × List String) → Option String → RunOut
  | [], streamErr =>
    match streamErr with
    | some e =>
      { sent := [], stdout := [], stderr := ["Error reading stdin: " ++ e], exit := 1 }
    | none => { sent := [], stdout := [], stderr := [], exit := 0 }
  | (line, environ) :: rest, streamErr =>
    if trimSpace line = "" then runPub cfg eval http urlExpr rest streamErr
    else
      let out := processLine cfg eval http environ line urlExpr
      let tail := runPub cfg eval http urlExpr rest streamErr
      let errLines :=
        match out.err with
        | some e => ["Error processing line: " ++ e.render]
        | none => []
      { sent := out.sent ++ tail.sent
        stdout := out.stdout ++ tail.stdout
        stderr := errLines ++ tail.stderr
        exit := tail.exit }

/-! ## Concrete collaborators used to exercise the pipeline -/

/-- An evaluator returning a fixed URL string for every expression. -/
def evalURL : EvalF := fun _ _ => .ok (.str "http://localhost:8080/test")

/-- A second evaluator, syntactically different from evalURL but
agreeing with it on every context. -/
def evalURL2 : EvalF := fun _ ctx => evalURL "x" ctx

/-- An evaluator returning the value of the variable A from the env
mapping of the context it is handed. -/
def evalEnvA : EvalF := fun _ ctx =>
  .ok (.str (((ctx.env.find? (fun p => p.1 = "A")).map (fun p => p.2)).getD "missing"))

/-- An evaluator with a fixed table: two same-name header expressions
and a Content-Type header expression; anything else is a URL. -/
def evalTable : EvalF := fun e _ =>
  if e = "h1" then .ok (.str "X-A: one")
  else if e = "h2" then .ok (.str "X-A: two")
  else if e = "hct" then .ok (.str "Content-Type: text/plain")
  else if e = "hbad" then .ok (.str "nocolon")
  else .ok (.str "http://localhost:8080/test")

/-- A transport answering 200 OK to every request. -/
def httpOk : HttpF := fun _ => .ok { statusCode := 200, status := "200 OK", body := "ok" }

/-- A transport answering 404 Not Found to every request. -/
def http404 : HttpF := fun _ => .ok { statusCode := 404, status := "404 Not Found", body := "nope" }

/-- The flag defaults: no headers, no transform, method POST. -/
def cfg0 : Config := { headers := [], transform := "", requestMethod := "POST" }

/-! ## Helper lemmas -/

theorem toList_append (a b : String) : (a ++ b).toList = a.toList ++ b.toList := by
  cases a
  cases b
  rfl

theorem breakAtChar_not_mem (sep : Char) :
    ∀ l : List Char, l.contains sep = false → breakAtChar sep l = none := by
  intro l
  induction l with
  | nil => intro _; rfl
  | cons c rest ih =>
    intro h
    rw [List.contains_cons, Bool.or_eq_false_iff] at h
    have hne : ¬ c = sep := by
      intro hc
      rw [hc] at h
      simp at h
    unfold breakAtChar
    rw [if_neg hne, ih h.2]

theorem breakAtChar_first (sep : Char) :
    ∀ pre post : List Char, pre.contains sep = false →
      breakAtChar sep (pre ++ sep :: post) = some (pre, post) := by
  intro pre
  induction pre with
  | nil => intro post _; simp [breakAtChar]
  | cons c rest ih =>
    intro post h
    rw [List.contains_cons, Bool.or_eq_false_iff] at h
    have hne : ¬ c = sep := by
      intro hc
      rw [hc] at h
      simp at h
    unfold breakAtChar
    simp only [List.cons_append]
    rw [if_neg hne, ih post h.2]

theorem splitN2_no_sep (s : String) (sep : Char) (h : s.toList.contains sep = false) :
    splitN2 s sep = [s] := by
  unfold splitN2
  rw [breakAtChar_not_mem sep s.toList h]

theorem splitN2_first (n v : String) (sep : Char) (h : n.toList.contains sep = false) :
    splitN2 (n ++ String.mk [sep] ++ v) sep = [n, v] := by
  unfold splitN2
  rw [toList_append, toList_append]
  have hsl : (String.mk [sep]).toList = [sep] := rfl
  rw [hsl, List.append_assoc]
  have hform : [sep] ++ v.toList = sep :: v.toList := rfl
  rw [hform, breakAtChar_first sep n.toList v.toList h]
  cases n
  cases v
  rfl

theorem addHeaders_congr {e1 e2 : EvalF} {ctx : Ctx}
    (h : ∀ e, e1 e ctx = e2 e ctx) :
    ∀ (hs : List String) (req : Request),
      addHeaders e1 ctx hs req = addHeaders e2 ctx hs req := by
  intro hs
  induction hs with
  | nil => intro req; rfl
  | cons x rest ih =>
    intro req
    unfold addHeaders
    rw [h x]
    cases e2 x ctx with
    | error e => rfl
    | ok v =>
      simp only []
      cases splitN2 (goFormat v) ':' with
      | nil => rfl
      | cons a t =>
        cases t with
        | nil => rfl
        | cons b t2 =>
          cases t2 with
          | nil =>
            show addHeaders e1 ctx rest _ = addHeaders e2 ctx rest _
            exact ih _
          | cons c t3 => rfl

theorem addHeaders_body {eval : EvalF} {ctx : Ctx} :
    ∀ (hs : List String) (req req' : Request),
      addHeaders eval ctx hs req = .ok req' → req'.body = req.body := by
  intro hs
  induction hs with
  | nil =>
    intro req req' h
    simp only [addHeaders] at h
    cases h
    rfl
  | cons x rest ih =>
    intro req req' h
    unfold addHeaders at h
    cases hv : eval x ctx with
    | error e => rw [hv] at h; cases h
    | ok v =>
      rw [hv] at h
      simp only [] at h
      cases hsp : splitN2 (goFormat v) ':' with
      | nil => rw [hsp] at h; cases h
      | cons a t =>
        cases t with
        | nil => rw [hsp] at h; cases h
        | cons b t2 =>
          cases t2 with
          | nil =>
            rw [hsp] at h
            have h2 : addHeaders eval ctx rest
                { req with headers := setHeader req.headers (trimSpace a) (trimSpace b) } =
                Except.ok req' := h
            have h3 := ih _ _ h2
            exact h3
          | cons c t3 => rw [hsp] at h; cases h

theorem addHeaders_method {eval : EvalF} {ctx : Ctx} :
    ∀ (hs : List String) (req req' : Request),
      addHeaders eval ctx hs req = .ok req' → req'.method = req.method := by
  intro hs
  induction hs with
  | nil =>
    intro req req' h
    simp only [addHeaders] at h
    cases h
    rfl
  | cons x rest ih =>
    intro req req' h
    unfold addHeaders at h
    cases hv : eval x ctx with
    | error e => rw [hv] at h; cases h
    | ok v =>
      rw [hv] at h
      simp only [] at h
      cases hsp : splitN2 (goFormat v) ':' with
      | nil => rw [hsp] at h; cases h
      | cons a t =>
        cases t with
        | nil => rw [hsp] at h; cases h
        | cons b t2 =>
          cases t2 with
          | nil =>
            rw [hsp] at h
            have h2 : addHeaders eval ctx rest
                { req with headers := setHeader req.headers (trimSpace a) (trimSpace b) } =
                Except.ok req' := h
            have h3 := ih _ _ h2
            exact h3
          | cons c t3 => rw [hsp] at h; cases h

theorem newRequest_ok (m u b : String) (r : Request) (h : newRequest m u b = .ok r) :
    r.body = b ∧ r.headers = [] := by
  simp only [newRequest] at h
  cases hv : validMethod (if m = "" then "GET" else m) with
  | false => rw [hv] at h; cases h
  | true =>
    rw [hv] at h
    cases hu : urlParseOk u with
    | false => rw [hu] at h; cases h
    | true => rw [hu] at h; cases h; exact ⟨rfl, rfl⟩

theorem goFormat_str (s : String) : goFormat (.str s) = s := rfl

theorem find?_replace (ck v : String) :
    ∀ l : List (String × String), l.any (fun p => p.1 = ck) = true →
      (l.map (fun p => if p.1 = ck then (ck, v) else p)).find?
        (fun p => p.1 = ck) = some (ck, v) := by
  intro l
  induction l with
  | nil => intro h; simp at h
  | cons p rest ih =>
    intro h
    by_cases hp : p.1 = ck
    · simp [hp]
    · rw [List.map_cons, if_neg hp, List.find?_cons_of_neg _ (by simpa using hp)]
      apply ih
      simp only [List.any_cons, Bool.or_eq_true] at h
      rcases h with h | h
      · exact absurd (by simpa using h) hp
      · exact h

theorem find?_append_not_found (ck v : String) :
    ∀ l : List (String × String), l.any (fun p => p.1 = ck) = false →
      (l ++ [(ck, v)]).find? (fun p => p.1 = ck) = some (ck, v) := by
  intro l
  induction l with
  | nil => intro _; simp
  | cons p rest ih =>
    intro h
    rw [List.any_cons, Bool.or_eq_false_iff] at h
    have hp : ¬ p.1 = ck := by simpa using h.1
    rw [List.cons_append, List.find?_cons_of_neg _ (by simpa using hp)]
    exact ih h.2

/-- Setting a header then reading it back under the same name yields
the value just set (http.Header.Set is set-by-canonical-name). -/
theorem getHeader_setHeader_self (hs : List (String × String)) (k v : String) :
    getHeader (setHeader hs k v) k = some v := by
  simp only [getHeader, setHeader]
  by_cases h : hs.any (fun p => p.1 = canonicalMIMEHeaderKey k) = true
  · rw [if_pos h, find?_replace _ v hs h]
    rfl
  · rw [if_neg h, find?_append_not_found _ v hs (Bool.eq_false_iff.mpr h)]
    rfl

/-! ## Claim theorems -/

/-- C1: the spec (and the README) describe a dry-run flag under which
the assembled request is printed and nothing is sent; the code has no
such flag: init registers only header, transform and request, and
every processLine call that completes without error has handed its
request to the transport.  There is no code path that assembles a
request without sending it. -/
theorem c1_no_dry_run_flag_requests_always_sent :
    "dry-run" ∉ registeredFlags ∧
    ∀ (cfg : Config) (eval : EvalF) (http : HttpF) (environ : List String)
      (line urlExpr : String),
      (processLine cfg eval http environ line urlExpr).err = none →
      (processLine cfg eval http environ line urlExpr).sent ≠ [] := by
  constructor
  · intro h
    simp [registeredFlags] at h
  · intro cfg eval http environ line urlExpr h
    simp only [processLine] at h ⊢
    repeat' split at h
    all_goals try simp_all
    all_goals rw [if_neg (by omega)]
    all_goals simp

/-- Witness for C1: with the default configuration, a constant URL
evaluator and a 200 transport, the successfully processed line is
sent. -/
theorem c1_witness :
    (processLine cfg0 evalURL httpOk ["A=x"] "0" "u").sent ≠ [] :=
  c1_no_dry_run_flag_requests_always_sent.2 cfg0 evalURL httpOk ["A=x"] "0" "u"
    (by decide)

/-- C3: per-record failures are logged to standard error and the
driver continues with the next line (output of a cons run is the
line's own output followed by the rest's, and the exit status ignores
per-line errors); the exit status is 1 exactly when the input stream
itself failed to read, and 0 on clean end-of-input. -/
theorem c3_per_line_errors_nonfatal_exit_codes :
    (∀ (cfg : Config) (eval : EvalF) (http : HttpF) (urlExpr : String)
       (lines : List (String × List String)) (streamErr : Option String),
       (runPub cfg eval http urlExpr lines streamErr).exit =
         if streamErr.isSome then 1 else 0) ∧
    (∀ (cfg : Config) (eval : EvalF) (http : HttpF) (urlExpr line : String)
       (environ : List String) (rest : List (String × List String))
       (streamErr : Option String),
       trimSpace line ≠ "" →
       (runPub cfg eval http urlExpr ((line, environ) :: rest) streamErr).stderr =
         (match (processLine cfg eval http environ line urlExpr).err with
          | some e => ["Error processing line: " ++ e.render]
          | none => []) ++ (runPub cfg eval http urlExpr rest streamErr).stderr ∧
       (runPub cfg eval http urlExpr ((line, environ) :: rest) streamErr).stdout =
         (processLine cfg eval http environ line urlExpr).stdout ++
           (runPub cfg eval http urlExpr rest streamErr).stdout ∧
       (runPub cfg eval http urlExpr ((line, environ) :: rest) streamErr).exit =
         (runPub cfg eval http urlExpr rest streamErr).exit) := by
  constructor
  · intro cfg eval http urlExpr lines streamErr
    induction lines with
    | nil => cases streamErr <;> rfl
    | cons p rest ih =>
      cases p with
      | mk l e =>
        unfold runPub
        by_cases hb : trimSpace l = ""
        · rw [if_pos hb]; exact ih
        · rw [if_neg hb]; exact ih
  · intro cfg eval http urlExpr line environ rest streamErr hb
    simp only [runPub]
    rw [if_neg hb]
    exact ⟨rfl, rfl, rfl⟩

/-- Witness for C3: a run whose only line fails to decode still exits
with status 0, logging the failure and continuing. -/
theorem c3_witness :
    (runPub cfg0 evalURL httpOk "u" [("\x7bbad", []), ("0", [])] none).exit = 0 ∧
    (runPub cfg0 evalURL httpOk "u" [("\x7bbad", []), ("0", [])] none).stderr =
      ["Error processing line: parsing JSON: invalid character looking for object key"] := by
  constructor
  · exact c3_per_line_errors_nonfatal_exit_codes.1 cfg0 evalURL httpOk "u"
      [("\x7bbad", []), ("0", [])] none
  · have h := (c3_per_line_errors_nonfatal_exit_codes.2 cfg0 evalURL httpOk "u"
      "\x7bbad" [] [("0", [])] none (by decide)).1
    rw [h]
    decide

/-- C8: a line that is empty or all-whitespace contributes nothing to
the run: the record processor is not invoked for it and it emits no
output or error line, so a run with the blank line inserted equals the
run without it. -/
theorem c8_blank_lines_skipped
    (cfg : Config) (eval : EvalF) (http : HttpF) (urlExpr : String)
    (xs ys : List (String × List String)) (b : String) (e : List String)
    (streamErr : Option String) (hb : trimSpace b = "") :
    runPub cfg eval http urlExpr (xs ++ (b, e) :: ys) streamErr =
      runPub cfg eval http urlExpr (xs ++ ys) streamErr := by
  induction xs with
  | nil =>
    simp only [List.nil_append]
    conv =>
      lhs
      rw [runPub]
    rw [if_pos hb]
  | cons p rest ih =>
    cases p with
    | mk l en =>
      simp only [List.cons_append, runPub, List.append_eq, ih]

/-- Witness for C8: inserting a whitespace-only line between two lines
leaves the run output unchanged. -/
theorem c8_witness :
    runPub cfg0 evalURL httpOk "u" [("0", []), ("  ", []), ("1", [])] none =
      runPub cfg0 evalURL httpOk "u" [("0", []), ("1", [])] none :=
  c8_blank_lines_skipped cfg0 evalURL httpOk "u" [("0", [])] [("1", [])] "  " []
    none (by decide)

/-- C5: when no transform expression is configured, the body of the
request handed to the transport is the JSON re-encoding of the decoded
record, not the raw input bytes. -/
theorem c5_body_is_reencoded_record
    (cfg : Config) (eval : EvalF) (http : HttpF) (environ : List String)
    (line urlExpr : String) (v : Json) (r : Request)
    (htr : cfg.transform = "")
    (hp : jsonParse line = .ok v)
    (hs : (processLine cfg eval http environ line urlExpr).sent = [r]) :
    r.body = jsonEncode v := by
  simp only [processLine, hp] at hs
  cases hu : eval urlExpr { input := v, env := getEnvMap environ } with
  | error e => simp only [hu] at hs; simp at hs
  | ok url =>
    simp only [hu] at hs
    have hbody : (if cfg.transform ≠ "" then
        match eval cfg.transform { input := v, env := getEnvMap environ } with
        | Except.error e => Except.error (ProcError.transformEval e)
        | Except.ok b => Except.ok b
      else Except.ok v) = Except.ok v := by
      rw [if_neg (by simp [htr])]
    simp only [hbody] at hs
    cases hn : newRequest cfg.requestMethod (goFormat url) (jsonEncode v) with
    | error e => simp only [hn] at hs; simp at hs
    | ok req0 =>
      simp only [hn] at hs
      cases ha : addHeaders eval { input := v, env := getEnvMap environ } cfg.headers
          { req0 with headers := setHeader req0.headers "Content-Type" "application/json" } with
      | error pe => simp only [ha] at hs; simp at hs
      | ok req =>
        simp only [ha] at hs
        have hbody1 : req.body = jsonEncode v := by
          have h1 := addHeaders_body _ _ _ ha
          have h2 := (newRequest_ok _ _ _ _ hn).1
          rw [h1]
          exact h2
        cases hh : http req with
        | error e =>
          simp only [hh] at hs
          simp at hs
          rw [← hs]
          exact hbody1
        | ok resp =>
          simp only [hh] at hs
          by_cases hc : 400 ≤ resp.statusCode
          · rw [if_pos hc] at hs
            simp at hs
            rw [← hs]
            exact hbody1
          · rw [if_neg hc] at hs
            simp at hs
            rw [← hs]
            exact hbody1

/-- Witness for C5: the body sent for the decoded object line equals
its compact re-encoding, with the whitespace of the raw line gone. -/
theorem c5_witness :
    (processLine cfg0 evalURL httpOk [] "\x7b\"message\": \"hello\"\x7d" "u").sent =
      [{ method := "POST", url := "http://localhost:8080/test",
         headers := [("Content-Type", "application/json")],
         body := "\x7b\"message\":\"hello\"\x7d" }] ∧
    ({ method := "POST", url := "http://localhost:8080/test",
       headers := [("Content-Type", "application/json")],
       body := "\x7b\"message\":\"hello\"\x7d" } : Request).body =
      jsonEncode (.obj [("message", .str "hello")]) := by
  constructor
  · decide
  · exact c5_body_is_reencoded_record cfg0 evalURL httpOk []
      "\x7b\"message\": \"hello\"\x7d" "u" (.obj [("message", .str "hello")])
      { method := "POST", url := "http://localhost:8080/test",
        headers := [("Content-Type", "application/json")],
        body := "\x7b\"message\":\"hello\"\x7d" }
      rfl (by rfl) (by decide)

theorem splitN2_colon (n v : String) (hn : n.toList.contains ':' = false) :
    splitN2 (n ++ ":" ++ v) ':' = [n, v] := by
  unfold splitN2
  rw [toList_append, toList_append]
  have hc : (":" : String).toList = [':'] := rfl
  rw [hc, List.append_assoc]
  have hform : [':'] ++ v.toList = ':' :: v.toList := rfl
  rw [hform, breakAtChar_first ':' n.toList v.toList hn]
  cases n
  cases v
  rfl

/-- One step of the header loop on a value whose text splits at its
first colon: the trimmed name/value pair is set and the loop
continues. -/
theorem addHeaders_cons_split (eval : EvalF) (ctx : Ctx) (hx : String)
    (rest : List String) (req : Request) (v : Json) (n val : String)
    (hv : eval hx ctx = .ok v) (hfmt : goFormat v = n ++ ":" ++ val)
    (hn : n.toList.contains ':' = false) :
    addHeaders eval ctx (hx :: rest) req =
      addHeaders eval ctx rest
        { req with headers := setHeader req.headers (trimSpace n) (trimSpace val) } := by
  simp only [addHeaders, hv, hfmt, splitN2_colon n val hn]

/-- One step of the header loop on a value whose text has no colon:
the loop aborts with the invalid-header-format error. -/
theorem addHeaders_cons_nocolon (eval : EvalF) (ctx : Ctx) (hx : String)
    (rest : List String) (req : Request) (v : Json)
    (hv : eval hx ctx = .ok v)
    (hn : (goFormat v).toList.contains ':' = false) :
    addHeaders eval ctx (hx :: rest) req =
      .error (.headerFormat (goFormat v)) := by
  simp only [addHeaders, hv, splitN2_no_sep (goFormat v) ':' hn]

theorem trimSpace_space_cons (x : String) : trimSpace (" " ++ x) = trimSpace x := by
  unfold trimSpace
  have h : (" " ++ x).toList = ' ' :: x.toList := by
    rw [toList_append]
    rfl
  rw [h]
  rfl

/-- C4: an evaluated header value is split on its first colon only,
name and value are trimmed of whitespace and set on the request; a
value with no colon makes the header loop fail with the
invalid-header-format error, and a record whose processing ends in
that error has sent no request. -/
theorem c4_header_colon_split :
    (∀ (eval : EvalF) (ctx : Ctx) (hx : String) (rest : List String)
       (req : Request) (v : Json) (n val : String),
       eval hx ctx = .ok v → goFormat v = n ++ ":" ++ val →
       n.toList.contains ':' = false →
       addHeaders eval ctx (hx :: rest) req =
         addHeaders eval ctx rest
           { req with
             headers := setHeader req.headers (trimSpace n) (trimSpace val) }) ∧
    (∀ (eval : EvalF) (ctx : Ctx) (hx : String) (rest : List String)
       (req : Request) (v : Json),
       eval hx ctx = .ok v → (goFormat v).toList.contains ':' = false →
       addHeaders eval ctx (hx :: rest) req =
         .error (.headerFormat (goFormat v))) ∧
    (∀ (cfg : Config) (eval : EvalF) (http : HttpF) (environ : List String)
       (line urlExpr s : String),
       (processLine cfg eval http environ line urlExpr).err =
         some (.headerFormat s) →
       (processLine cfg eval http environ line urlExpr).sent = []) := by
  refine ⟨addHeaders_cons_split, addHeaders_cons_nocolon, ?_⟩
  intro cfg eval http environ line urlExpr s h
  simp only [processLine] at h ⊢
  repeat' split at h
  all_goals try simp_all

/-- Witness for C4: a header expression evaluating to a colon-free
string fails the record with the invalid-header-format error and the
record is not sent. -/
theorem c4_witness :
    (processLine { cfg0 with headers := ["hbad"] } evalTable httpOk [] "0" "u").err =
      some (.headerFormat "nocolon") ∧
    (processLine { cfg0 with headers := ["hbad"] } evalTable httpOk [] "0" "u").sent =
      [] := by
  constructor
  · decide
  · exact c4_header_colon_split.2.2 { cfg0 with headers := ["hbad"] } evalTable
      httpOk [] "0" "u" "nocolon" (by decide)

/-- In the final stage of processLine, whatever the transport answers,
the one request in the sent list is the request that was handed to it. -/
theorem sent_eq_of_http_branch (http : HttpF) (rq r : Request)
    (hs : (match http rq with
           | Except.error e =>
             ({ sent := [rq], stdout := [], err := some (ProcError.send e) } : ProcOut)
           | Except.ok resp =>
             if 400 ≤ resp.statusCode then
               { sent := [rq],
                 stdout := ["Status: " ++ resp.status ++ ", Response: " ++ resp.body],
                 err := some (ProcError.httpStatus resp.status) }
             else
               { sent := [rq],
                 stdout := ["Status: " ++ resp.status ++ ", Response: " ++ resp.body],
                 err := none }).sent = [r]) : rq = r := by
  cases hh : http rq with
  | error e => simp only [hh] at hs; simpa using hs
  | ok resp =>
    simp only [hh] at hs
    by_cases hc : 400 ≤ resp.statusCode
    · rw [if_pos hc] at hs; simpa using hs
    · rw [if_neg hc] at hs; simpa using hs

/-- C7: header expressions are applied in the order given, each one
set by name on the request, so two header expressions carrying the
same name leave the later value in the final request (last-write-wins,
no appending). -/
theorem c7_headers_in_order_last_wins
    (cfg : Config) (eval : EvalF) (http : HttpF) (environ : List String)
    (line urlExpr : String) (input : Json) (hx1 hx2 n a b : String) (r : Request)
    (hcfg : cfg.headers = [hx1, hx2])
    (hp : jsonParse line = .ok input)
    (h1 : eval hx1 { input := input, env := getEnvMap environ } =
      .ok (.str (n ++ ":" ++ a)))
    (h2 : eval hx2 { input := input, env := getEnvMap environ } =
      .ok (.str (n ++ ":" ++ b)))
    (hn : n.toList.contains ':' = false)
    (hs : (processLine cfg eval http environ line urlExpr).sent = [r]) :
    getHeader r.headers (trimSpace n) = some (trimSpace b) := by
  simp only [processLine, hp, hcfg] at hs
  cases hu : eval urlExpr { input := input, env := getEnvMap environ } with
  | error e => simp only [hu] at hs; simp at hs
  | ok url =>
    simp only [hu] at hs
    cases hbr : (if cfg.transform ≠ "" then
        match eval cfg.transform { input := input, env := getEnvMap environ } with
        | Except.error e => Except.error (ProcError.transformEval e)
        | Except.ok b => Except.ok b
      else Except.ok input) with
    | error pe => simp only [hbr] at hs; simp at hs
    | ok body =>
      simp only [hbr] at hs
      cases hnr : newRequest cfg.requestMethod (goFormat url) (jsonEncode body) with
      | error e => simp only [hnr] at hs; simp at hs
      | ok req0 =>
        simp only [hnr] at hs
        rw [addHeaders_cons_split eval _ hx1 [hx2] _ _ n a h1 (goFormat_str _) hn] at hs
        rw [addHeaders_cons_split eval _ hx2 [] _ _ n b h2 (goFormat_str _) hn] at hs
        simp only [addHeaders] at hs
        have hr := sent_eq_of_http_branch http _ r hs
        rw [← hr]
        exact getHeader_setHeader_self _ _ _

/-- Witness for C7: two header expressions both naming X-A leave the
second value in the request sent. -/
theorem c7_witness :
    (processLine { cfg0 with headers := ["h1", "h2"] } evalTable httpOk [] "0" "u").sent =
      [{ method := "POST", url := "http://localhost:8080/test",
         headers := [("Content-Type", "application/json"), ("X-A", "two")],
         body := "0" }] ∧
    getHeader [("Content-Type", "application/json"), ("X-A", "two")]
      (trimSpace "X-A") = some (trimSpace " two") := by
  constructor
  · decide
  · exact c7_headers_in_order_last_wins { cfg0 with headers := ["h1", "h2"] }
      evalTable httpOk [] "0" "u" (.num 0) "h1" "h2" "X-A" " one" " two"
      { method := "POST", url := "http://localhost:8080/test",
        headers := [("Content-Type", "application/json"), ("X-A", "two")],
        body := "0" }
      rfl rfl rfl rfl (by decide) (by decide)

/-- C10: the default Content-Type application/json header is set on
the request before the user header expressions run, and user headers
are applied set-by-name, so a record with no header expressions is
sent with the default, and a header expression producing a
Content-Type value replaces the default instead of duplicating it. -/
theorem c10_default_content_type_overridden :
    (∀ (cfg : Config) (eval : EvalF) (http : HttpF) (environ : List String)
       (line urlExpr : String) (input : Json) (r : Request),
       cfg.headers = [] → jsonParse line = .ok input →
       (processLine cfg eval http environ line urlExpr).sent = [r] →
       r.headers = [("Content-Type", "application/json")]) ∧
    (∀ (cfg : Config) (eval : EvalF) (http : HttpF) (environ : List String)
       (line urlExpr : String) (input : Json) (hexp x : String) (r : Request),
       cfg.headers = [hexp] → jsonParse line = .ok input →
       eval hexp { input := input, env := getEnvMap environ } =
         .ok (.str ("Content-Type: " ++ x)) →
       (processLine cfg eval http environ line urlExpr).sent = [r] →
       r.headers = [("Content-Type", trimSpace x)] ∧
       getHeader r.headers "Content-Type" = some (trimSpace x)) := by
  constructor
  · intro cfg eval http environ line urlExpr input r hcfg hp hs
    simp only [processLine, hp, hcfg] at hs
    cases hu : eval urlExpr { input := input, env := getEnvMap environ } with
    | error e => simp only [hu] at hs; simp at hs
    | ok url =>
      simp only [hu] at hs
      cases hbr : (if cfg.transform ≠ "" then
          match eval cfg.transform { input := input, env := getEnvMap environ } with
          | Except.error e => Except.error (ProcError.transformEval e)
          | Except.ok b => Except.ok b
        else Except.ok input) with
      | error pe => simp only [hbr] at hs; simp at hs
      | ok body =>
        simp only [hbr] at hs
        cases hnr : newRequest cfg.requestMethod (goFormat url) (jsonEncode body) with
        | error e => simp only [hnr] at hs; simp at hs
        | ok req0 =>
          simp only [hnr] at hs
          simp only [addHeaders] at hs
          have hr := sent_eq_of_http_branch http _ r hs
          rw [← hr]
          show setHeader req0.headers "Content-Type" "application/json" =
            [("Content-Type", "application/json")]
          rw [(newRequest_ok _ _ _ _ hnr).2]
          decide
  · intro cfg eval http environ line urlExpr input hexp x r hcfg hp hev hs
    simp only [processLine, hp, hcfg] at hs
    cases hu : eval urlExpr { input := input, env := getEnvMap environ } with
    | error e => simp only [hu] at hs; simp at hs
    | ok url =>
      simp only [hu] at hs
      cases hbr : (if cfg.transform ≠ "" then
          match eval cfg.transform { input := input, env := getEnvMap environ } with
          | Except.error e => Except.error (ProcError.transformEval e)
          | Except.ok b => Except.ok b
        else Except.ok input) with
      | error pe => simp only [hbr] at hs; simp at hs
      | ok body =>
        simp only [hbr] at hs
        cases hnr : newRequest cfg.requestMethod (goFormat url) (jsonEncode body) with
        | error e => simp only [hnr] at hs; simp at hs
        | ok req0 =>
          simp only [hnr] at hs
          have hfmt : goFormat (.str ("Content-Type: " ++ x)) =
              "Content-Type" ++ ":" ++ (" " ++ x) := by
            rw [goFormat_str]
            cases x
            rfl
          rw [addHeaders_cons_split eval _ hexp [] _ _ "Content-Type" (" " ++ x)
            hev hfmt (by decide)] at hs
          simp only [addHeaders] at hs
          have hr := sent_eq_of_http_branch http _ r hs
          rw [← hr]
          show setHeader (setHeader req0.headers "Content-Type" "application/json")
              (trimSpace "Content-Type") (trimSpace (" " ++ x)) =
              [("Content-Type", trimSpace x)] ∧
            getHeader (setHeader (setHeader req0.headers "Content-Type" "application/json")
              (trimSpace "Content-Type") (trimSpace (" " ++ x))) "Content-Type" =
              some (trimSpace x)
          rw [(newRequest_ok _ _ _ _ hnr).2, trimSpace_space_cons]
          exact ⟨rfl, rfl⟩

/-- Witness for C10: a user Content-Type header expression replaces
the default in the request sent, leaving a single entry. -/
theorem c10_witness :
    (processLine { cfg0 with headers := ["hct"] } evalTable httpOk [] "0" "u").sent =
      [{ method := "POST", url := "http://localhost:8080/test",
         headers := [("Content-Type", "text/plain")], body := "0" }] ∧
    ({ method := "POST", url := "http://localhost:8080/test",
       headers := [("Content-Type", "text/plain")], body := "0" } : Request).headers =
        [("Content-Type", trimSpace "text/plain")] ∧
    getHeader [("Content-Type", "text/plain")] "Content-Type" =
      some (trimSpace "text/plain") := by
  refine ⟨by decide, ?_⟩
  exact c10_default_content_type_overridden.2 { cfg0 with headers := ["hct"] }
    evalTable httpOk [] "0" "u" (.num 0) "hct" "text/plain"
    { method := "POST", url := "http://localhost:8080/test",
      headers := [("Content-Type", "text/plain")], body := "0" }
    rfl rfl rfl (by decide)

/-- C2 counterexample: the claim says the env mapping is snapshotted
once at process start and reused for every line; in the code
processLine rebuilds it from the process environment on every call, so
two lines of one run observe different mappings when the environment
differs between their processing moments, which a single snapshot
could never produce. -/
theorem c2_counterexample_env_reread_per_line :
    (runPub cfg0 evalEnvA httpOk "u" [("0", ["A=x"]), ("0", ["A=y"])] none).sent.map
        (fun r => r.url) = ["x", "y"] ∧
    getEnvMap ["A=y"] ≠ getEnvMap ["A=x"] := by
  decide

/-- C2 amended: the evaluation context of every line is built inside
that line's processLine call as the decoded input paired with
getEnvMap of the process environment at that moment — the behaviour
of processLine depends on the evaluator only through its values on
exactly that context. -/
theorem c2_env_rebuilt_per_line
    (cfg : Config) (e1 e2 : EvalF) (http : HttpF) (environ : List String)
    (line urlExpr : String) (input : Json)
    (hp : jsonParse line = .ok input)
    (h : ∀ e, e1 e { input := input, env := getEnvMap environ } =
      e2 e { input := input, env := getEnvMap environ }) :
    processLine cfg e1 http environ line urlExpr =
      processLine cfg e2 http environ line urlExpr := by
  simp only [processLine, hp, h urlExpr, h cfg.transform, addHeaders_congr h]

/-- Witness for C2's amended theorem: two syntactically different
evaluators agreeing on the line's context give identical processing. -/
theorem c2_witness :
    processLine cfg0 evalURL httpOk ["A=x"] "0" "u" =
      processLine cfg0 evalURL2 httpOk ["A=x"] "0" "u" :=
  c2_env_rebuilt_per_line cfg0 evalURL evalURL2 httpOk ["A=x"] "0" "u" (.num 0)
    rfl (fun e => rfl)

/-- C6: when the transport returns a response, the status line is
printed to standard output whatever the status code, and the record is
flagged with the HTTP-status error exactly when the code is at least
400; the driver still goes on to the next line, its sent requests
being this line's followed by the rest's. -/
theorem c6_response_reported_before_status_error :
    (∀ (cfg : Config) (eval : EvalF) (http : HttpF) (environ : List String)
       (line urlExpr : String) (req : Request) (resp : Response),
       (processLine cfg eval http environ line urlExpr).sent = [req] →
       http req = .ok resp →
       (processLine cfg eval http environ line urlExpr).stdout =
         ["Status: " ++ resp.status ++ ", Response: " ++ resp.body] ∧
       (processLine cfg eval http environ line urlExpr).err =
         (if 400 ≤ resp.statusCode then some (.httpStatus resp.status) else none)) ∧
    (∀ (cfg : Config) (eval : EvalF) (http : HttpF) (urlExpr line : String)
       (environ : List String) (rest : List (String × List String))
       (streamErr : Option String),
       trimSpace line ≠ "" →
       (runPub cfg eval http urlExpr ((line, environ) :: rest) streamErr).sent =
         (processLine cfg eval http environ line urlExpr).sent ++
           (runPub cfg eval http urlExpr rest streamErr).sent) := by
  constructor
  · intro cfg eval http environ line urlExpr req resp hs hh
    cases hjp : jsonParse line with
    | error e => simp only [processLine, hjp] at hs; simp at hs
    | ok input =>
      simp only [processLine, hjp] at hs ⊢
      cases hu : eval urlExpr { input := input, env := getEnvMap environ } with
      | error e => simp only [hu] at hs; simp at hs
      | ok url =>
        simp only [hu] at hs ⊢
        cases hbr : (if cfg.transform ≠ "" then
            match eval cfg.transform { input := input, env := getEnvMap environ } with
            | Except.error e => Except.error (ProcError.transformEval e)
            | Except.ok b => Except.ok b
          else Except.ok input) with
        | error pe => simp only [hbr] at hs; simp at hs
        | ok body =>
          simp only [hbr] at hs ⊢
          cases hnr : newRequest cfg.requestMethod (goFormat url) (jsonEncode body) with
          | error e => simp only [hnr] at hs; simp at hs
          | ok req0 =>
            simp only [hnr] at hs ⊢
            cases ha : addHeaders eval { input := input, env := getEnvMap environ }
                cfg.headers
                { req0 with
                  headers := setHeader req0.headers "Content-Type" "application/json" } with
            | error pe => simp only [ha] at hs; simp at hs
            | ok rq =>
              simp only [ha] at hs ⊢
              have hr : rq = req := sent_eq_of_http_branch http rq req hs
              subst hr
              by_cases hc : 400 ≤ resp.statusCode
              · simp [hh, hc]
              · simp [hh, hc]
  · intro cfg eval http urlExpr line environ rest streamErr hb
    simp only [runPub]
    rw [if_neg hb]

/-- Witness for C6: a 404 response is printed to standard output and
the record is flagged with the HTTP-status error afterwards. -/
theorem c6_witness :
    (processLine cfg0 evalURL http404 [] "0" "u").stdout =
      ["Status: " ++ "404 Not Found" ++ ", Response: " ++ "nope"] ∧
    (processLine cfg0 evalURL http404 [] "0" "u").err =
      (if 400 ≤ (404 : Nat) then some (.httpStatus "404 Not Found") else none) :=
  c6_response_reported_before_status_error.1 cfg0 evalURL http404 [] "0" "u"
    { method := "POST", url := "http://localhost:8080/test",
      headers := [("Content-Type", "application/json")], body := "0" }
    { statusCode := 404, status := "404 Not Found", body := "nope" }
    (by decide) rfl

/-- C9 counterexample: the claim says each error line identifies the
failing input line number; the code prints the same error text when
the bad line is the first input line as when it is the second, so the
error line cannot identify the line number. -/
theorem c9_counterexample_no_line_number :
    (runPub cfg0 evalURL httpOk "u" [("\x7bbad", [])] none).stderr =
      ["Error processing line: parsing JSON: invalid character looking for object key"] ∧
    (runPub cfg0 evalURL httpOk "u" [("0", []), ("\x7bbad", [])] none).stderr =
      ["Error processing line: parsing JSON: invalid character looking for object key"] := by
  decide

/-- C9 amended: the line logged for a per-record failure is the fixed
marker followed by the rendered error, which names the failing phase
and the underlying cause but not the input line number; it depends
only on the failing line itself, not on its position. -/
theorem c9_error_line_has_phase_and_cause_only
    (cfg : Config) (eval : EvalF) (http : HttpF) (urlExpr line : String)
    (environ : List String) (rest : List (String × List String))
    (streamErr : Option String) (er : ProcError)
    (hb : trimSpace line ≠ "")
    (he : (processLine cfg eval http environ line urlExpr).err = some er) :
    (runPub cfg eval http urlExpr ((line, environ) :: rest) streamErr).stderr =
      ("Error processing line: " ++ er.render) ::
        (runPub cfg eval http urlExpr rest streamErr).stderr := by
  simp only [runPub]
  rw [if_neg hb]
  simp only [he]
  rfl

/-- Witness for C9's amended theorem: the logged line for a decode
failure is the marker plus the rendered parse error. -/
theorem c9_witness :
    (runPub cfg0 evalURL httpOk "u" [("nope", [])] none).stderr =
      ("Error processing line: " ++
        (ProcError.parseJson "invalid character n looking for beginning of value").render) ::
        (runPub cfg0 evalURL httpOk "u" [] none).stderr :=
  c9_error_line_has_phase_and_cause_only cfg0 evalURL httpOk "u" "nope" [] [] none
    (.parseJson "invalid character n looking for beginning of value")
    (by decide) (by decide)

end Pub




